import Mathlib

/-!
Verification of the display-orchestration core of the `rgbmatrixticker`
repository, as a shallow embedding in Lean 4.

Python strings are modelled as lists of characters (`Str`), Python ints as
`ℤ`/`ℕ`, and timestamps (`time.time()` values and the configured intervals)
as integers `ℤ` — every comparison the code performs on timestamps is an
order comparison, which the integers model faithfully.  Text width
measurement (`DisplayManager.get_text_width` with a font face, falling back
to `6 · len`) is modelled by an arbitrary function `wfn : Str → ℕ`, so the
theorems quantify over every font; the concrete fallback measure
`fun s => 6 * s.length` is used for counterexamples and witnesses.
Fallible steps (network fetches, `int(v)` conversion) are modelled by an
`Option` argument carrying the outcome.  Logging calls have no state effect
and are omitted, except where they touch state (throttling timestamps).
-/

/-- Python strings, modelled as lists of characters (code points). -/
abbrev Str := List Char

/-- The ellipsis marker `"..."` appended by truncation in `_wrap_text`. -/
def dots : Str := ['.', '.', '.']

/-- Python `str.split()` with no separator: split on runs of whitespace,
dropping empty pieces.  `curr` is the (reversed) run of non-whitespace
characters currently being collected. -/
def pySplit : Str → Str → List Str
  | [], curr => if curr = [] then [] else [curr.reverse]
  | c :: rest, curr =>
    if c.isWhitespace then
      if curr = [] then pySplit rest [] else curr.reverse :: pySplit rest []
    else pySplit rest (c :: curr)

/-- `text.split()` in `_wrap_text`: the words of the text. -/
def pyWords (text : Str) : List Str := pySplit text []

/-- Python `' '.join(words)`. -/
def joinSp (ws : List Str) : Str := List.intercalate [' '] ws

/-- The `while len(truncated) > 0` loop of `_wrap_text` (both managers):
starting from the whole word (`k = w.length`) and dropping one character
from the end per iteration, return `some (truncated ++ "...")` for the
first (longest) truncation whose measured width fits `maxWidth`, and
`none` when the loop exhausts the word without a fit. -/
def truncateAux (wfn : Str → ℕ) (maxWidth : ℕ) (w : Str) : ℕ → Option Str
  | 0 => none
  | k + 1 =>
    if wfn (w.take (k + 1) ++ dots) ≤ maxWidth then some (w.take (k + 1) ++ dots)
    else truncateAux wfn maxWidth w k

/-- The overflow branch of the word loop of `_wrap_text`, textually
identical in both managers (src/src/of_the_day_manager.py lines 326-342,
src/src/calendar_manager.py lines 213-227): when the test line does not
fit, a non-empty `current_line` is closed and the word starts a new one;
a single word on an empty line is ellipsis-truncated, falling back to
its first 10 characters plus the ellipsis when no truncation fits. -/
def overflowStep (wfn : Str → ℕ) (maxWidth : ℕ) (lines currentLine : List Str)
    (word : Str) : List Str × List Str :=
  if currentLine ≠ [] then (lines ++ [joinSp currentLine], [word])
  else
    match truncateAux wfn maxWidth word word.length with
    | some l => (lines ++ [l], currentLine)
    | none => (lines ++ [word.take 10 ++ dots], currentLine)

/-- The `for word in words` loop of `OfTheDayManager._wrap_text`
(src/src/of_the_day_manager.py lines 318-345).  State: the accumulated
`lines` and the words of the `current_line`.  After each word the loop
breaks when `len(lines) * line_height >= max_height or
len(lines) >= max_lines`. -/
def wrapLoop (wfn : Str → ℕ) (maxWidth maxLines lineHeight maxHeight : ℕ) :
    List Str → List Str → List Str → List Str × List Str
  | [], lines, currentLine => (lines, currentLine)
  | word :: rest, lines, currentLine =>
    let testLine := if currentLine = [] then word else joinSp (currentLine ++ [word])
    if wfn testLine ≤ maxWidth then
      let cl := currentLine ++ [word]
      if maxHeight ≤ lines.length * lineHeight ∨ maxLines ≤ lines.length then
        (lines, cl)
      else wrapLoop wfn maxWidth maxLines lineHeight maxHeight rest lines cl
    else
      let st := overflowStep wfn maxWidth lines currentLine word
      if maxHeight ≤ st.1.length * lineHeight ∨ maxLines ≤ st.1.length then st
      else wrapLoop wfn maxWidth maxLines lineHeight maxHeight rest st.1 st.2

namespace OfTheDayManager

/-- `OfTheDayManager._wrap_text(text, max_width, face, max_lines,
line_height, max_height)` (src/src/of_the_day_manager.py lines 312-350).
`if not text: return [""]`; otherwise run the word loop, flush the
remaining `current_line` when both bounds still have room, pad with empty
strings up to `max_lines`, and return `lines[:max_lines]`. -/
def wrapText (wfn : Str → ℕ) (text : Str)
    (maxWidth maxLines lineHeight maxHeight : ℕ) : List Str :=
  if text = [] then [[]]
  else
    let st := wrapLoop wfn maxWidth maxLines lineHeight maxHeight (pyWords text) [] []
    let lines :=
      if st.2 ≠ [] ∧ st.1.length * lineHeight < maxHeight ∧ st.1.length < maxLines
      then st.1 ++ [joinSp st.2] else st.1
    (lines ++ List.replicate (maxLines - lines.length) []).take maxLines

end OfTheDayManager

/-- The `for word in words` loop of `CalendarManager._wrap_text`
(src/src/calendar_manager.py lines 204-231).  Identical to the
OfTheDayManager loop except the break condition is
`len(lines) >= max_lines` only. -/
def calWrapLoop (wfn : Str → ℕ) (maxWidth maxLines : ℕ) :
    List Str → List Str → List Str → List Str × List Str
  | [], lines, currentLine => (lines, currentLine)
  | word :: rest, lines, currentLine =>
    let testLine := if currentLine = [] then word else joinSp (currentLine ++ [word])
    if wfn testLine ≤ maxWidth then
      let cl := currentLine ++ [word]
      if maxLines ≤ lines.length then (lines, cl)
      else calWrapLoop wfn maxWidth maxLines rest lines cl
    else
      let st := overflowStep wfn maxWidth lines currentLine word
      if maxLines ≤ st.1.length then st
      else calWrapLoop wfn maxWidth maxLines rest st.1 st.2

namespace CalendarManager

/-- `CalendarManager._wrap_text(text, max_width, font, max_lines)`
(src/src/calendar_manager.py lines 195-250).  After the word loop, a
non-empty `current_line` is flushed: when further words remain
(`len(words) > len(current_line)`) the joined remainder is
ellipsis-truncated (appending nothing if even the empty remainder does
not fit), otherwise it is appended as is; then the result is padded with
empty strings and cut to `max_lines`. -/
def wrapText (wfn : Str → ℕ) (text : Str) (maxWidth maxLines : ℕ) : List Str :=
  if text = [] then [[]]
  else
    let ws := pyWords text
    let st := calWrapLoop wfn maxWidth maxLines ws [] []
    let lines :=
      if st.2 ≠ [] ∧ st.1.length < maxLines then
        let remaining := joinSp st.2
        if st.2.length < ws.length then
          match truncateAux wfn maxWidth remaining remaining.length with
          | some l => st.1 ++ [l]
          | none => st.1
        else st.1 ++ [remaining]
      else st.1
    (lines ++ List.replicate (maxLines - lines.length) []).take maxLines

end CalendarManager

/-- The fallback width measure: `len(text) * 6` pixels
(src/src/of_the_day_manager.py line 323, src/src/rgbmatrix_fallback.py
`CharacterWidth`). -/
def w6 : Str → ℕ := fun s => 6 * s.length

/-- Classification of the lines `_wrap_text` can emit, given the words
`ws` of the input text: a line either fits the width budget, or is a
single word of the text carried unchecked onto a fresh line by the
overflow branch, or is the last-resort truncation
`word[:10] + "..."`. -/
def GoodLine (wfn : Str → ℕ) (maxWidth : ℕ) (ws : List Str) (l : Str) : Prop :=
  wfn l ≤ maxWidth ∨ l ∈ ws ∨ ∃ w ∈ ws, l = w.take 10 ++ dots

/-- Side effects of a `display()` call on the display manager and its
canvas: `display_manager.clear()`, the draw of the current item, and the
buffer swap performed by `display_manager.update_display()`. -/
inductive DisplayEffect : Type
  | clear : DisplayEffect
  | draw : DisplayEffect
  | swap : DisplayEffect
deriving DecidableEq

/-- The mutable state of `OfTheDayManager`
(src/src/of_the_day_manager.py `__init__`), restricted to the fields the
rotation logic reads or writes.  `currentItems` is the ordered list of
category keys of the `current_items` dict (Python dicts preserve
insertion order; only the keys and the count matter to rotation).
`lastDrawnCategoryIndex` is an `ℤ` because the code uses `-1` as the
"force redraw" sentinel.  Timestamps and intervals are `ℤ` seconds. -/
structure OTDState where
  enabled : Bool
  subtitleRotateInterval : ℤ
  displayRotateInterval : ℤ
  currentItems : List String
  currentCategoryIndex : ℕ
  currentDay : Option ℤ
  lastDrawnCategoryIndex : ℤ
  lastDrawnDay : Option ℤ
  rotationState : ℕ
  lastRotationTime : ℤ
  lastCategoryRotationTime : ℤ
  lastWarningTime : Option ℤ
  lastDisplayLog : ℤ
deriving DecidableEq

namespace OfTheDayManager

/-- `OfTheDayManager.display(force_clear)` (src/src/of_the_day_manager.py
lines 352-409), as a function of the state and the current time `now`
(`time.time()`), returning the new state and the list of canvas effects.
Step by step: early return when disabled; when `current_items` is empty,
only the warning-throttle timestamp may change; otherwise the
subtitle/description phase toggles when its timer elapsed, then the
category index advances (mod the item count) when its timer elapsed,
resetting the phase to 0; finally, when the selected index or day differs
from the last drawn one (or `force_clear`), the item is cleared, drawn
and swapped and the last-drawn markers are updated. -/
def display (s : OTDState) (now : ℤ) (force_clear : Bool) :
    OTDState × List DisplayEffect :=
  if s.enabled = false then (s, [])
  else if s.currentItems = [] then
    (if (match s.lastWarningTime with
         | none => true
         | some t => decide (now - t > 10) : Bool)
     then { s with lastWarningTime := some now } else s, [])
  else
    let s1 :=
      if now - s.lastRotationTime > s.subtitleRotateInterval then
        { s with rotationState := (s.rotationState + 1) % 2,
                 lastRotationTime := now,
                 lastDrawnCategoryIndex := -1,
                 lastDrawnDay := none }
      else s
    let s2 :=
      if now - s1.lastCategoryRotationTime > s1.displayRotateInterval then
        { s1 with currentCategoryIndex :=
                    (s1.currentCategoryIndex + 1) % s1.currentItems.length,
                  lastCategoryRotationTime := now,
                  rotationState := 0,
                  lastRotationTime := now,
                  lastDrawnCategoryIndex := -1,
                  lastDrawnDay := none }
      else s1
    if (s2.currentCategoryIndex : ℤ) = s2.lastDrawnCategoryIndex ∧
       s2.currentDay = s2.lastDrawnDay ∧ force_clear = false then (s2, [])
    else
      let s3 :=
        if s2.currentItems.length ≤ s2.currentCategoryIndex then
          { s2 with currentCategoryIndex := 0 }
        else s2
      let s4 := if now - s3.lastDisplayLog > 5 then { s3 with lastDisplayLog := now } else s3
      ({ s4 with lastDrawnCategoryIndex := (s4.currentCategoryIndex : ℤ),
                 lastDrawnDay := s4.currentDay },
       [DisplayEffect.clear, DisplayEffect.draw, DisplayEffect.swap])

/-- `OfTheDayManager.advance_item()` (src/src/of_the_day_manager.py lines
411-449) as a function of the state and the current time.  The external
advance is skipped when the internal rotation timer has already elapsed
(`now - last > interval`), and also when
`now - last < display_rotate_interval - 5`; otherwise the category index
advances modulo the item count, both rotation timers are re-armed to
`now`, the phase resets to 0 and a redraw is forced. -/
def advance_item (s : OTDState) (now : ℤ) : OTDState :=
  if s.enabled = false then s
  else if now - s.lastCategoryRotationTime > s.displayRotateInterval then s
  else if now - s.lastCategoryRotationTime < s.displayRotateInterval - 5 then s
  else if s.currentItems = [] then s
  else
    { s with currentCategoryIndex :=
               (s.currentCategoryIndex + 1) % s.currentItems.length,
             lastCategoryRotationTime := now,
             rotationState := 0,
             lastRotationTime := now,
             lastDrawnCategoryIndex := -1,
             lastDrawnDay := none }

end OfTheDayManager

/-- The mutable state of `CalendarManager`
(src/src/calendar_manager.py `__init__`), restricted to the fields the
update/advance logic touches.  Events are modelled by their summaries;
`hasService` models `self.service` being set by `authenticate()`. -/
structure CalState where
  enabled : Bool
  updateInterval : ℤ
  hasService : Bool
  events : List String
  lastUpdate : ℤ
  lastDisplayLog : ℤ
  currentEventIndex : ℕ
deriving DecidableEq

namespace CalendarManager

/-- `CalendarManager.get_events()` (src/src/calendar_manager.py lines
102-135).  `fetchResult` models the outcome of the Google Calendar API
call: `some evs` when the request succeeded with those events, `none`
when it raised.  Returns `[]` when disabled, when there is no service,
and on failure (the `except` clause logs and returns `[]`). -/
def get_events (c : CalState) (fetchResult : Option (List String)) : List String :=
  if c.enabled = false ∨ c.hasService = false then []
  else
    match fetchResult with
    | some evs => evs
    | none => []

/-- `CalendarManager.update(current_time)` (src/src/calendar_manager.py
lines 252-272).  When enabled and the update interval has elapsed, the
cached `events` are replaced by `get_events()` (which is `[]` on a failed
fetch), `last_update` is re-armed and the event index resets; otherwise
only the debug-log throttle timestamp may change. -/
def update (c : CalState) (current_time : ℤ)
    (fetchResult : Option (List String)) : CalState :=
  if c.enabled = false then c
  else if current_time - c.lastUpdate > c.updateInterval then
    { c with events := get_events c fetchResult,
             lastUpdate := current_time,
             currentEventIndex := 0 }
  else if current_time - c.lastDisplayLog > 5 then
    { c with lastDisplayLog := current_time }
  else c

/-- `CalendarManager.advance_event()` (src/src/calendar_manager.py lines
346-354): when enabled, increment `current_event_index` and reset it to 0
when it reaches `len(self.events)`. -/
def advance_event (c : CalState) : CalState :=
  if c.enabled = false then c
  else
    let i := c.currentEventIndex + 1
    if c.events.length ≤ i then { c with currentEventIndex := 0 }
    else { c with currentEventIndex := i }

end CalendarManager

/-- The state of `NewsFetcher` (src/news.py): the feed URL and the cached
headline list. -/
structure NewsFetcher where
  feedUrl : String
  headlines : List String
deriving DecidableEq

namespace NewsFetcher

/-- `NewsFetcher.fetch()` (src/news.py lines 26-33).  `parseResult`
models the outcome of `feedparser.parse`: `some titles` on success (the
entry titles, of which the first 5 are kept), `none` when it raised.  On
failure the exception is swallowed (logged) and `self.headlines = []`. -/
def fetch (nf : NewsFetcher) (parseResult : Option (List String)) : NewsFetcher :=
  match parseResult with
  | some titles => { nf with headlines := titles.take 5 }
  | none => { nf with headlines := [] }

end NewsFetcher

/-- `RGBMatrixCanvas` (src/src/rgbmatrix_fallback.py lines 45-64): a
`height × width` grid of RGB triples, stored row-major as
`self._pixels[y][x]`. -/
structure RGBMatrixCanvas where
  width : ℕ
  height : ℕ
  pixels : List (List (ℕ × ℕ × ℕ))
deriving DecidableEq

namespace RGBMatrixCanvas

/-- `RGBMatrixCanvas.SetPixel(x, y, r, g, b)`
(src/src/rgbmatrix_fallback.py lines 57-60): writes
`self._pixels[y][x] = (r, g, b)` only when `0 <= x < width` and
`0 <= y < height`; otherwise the guard fails and nothing happens.  Row
lookup uses `getD` (total), which agrees with Python list indexing on any
well-formed canvas since the guard keeps the indices in range. -/
def SetPixel (c : RGBMatrixCanvas) (x y : ℤ) (r g b : ℕ) : RGBMatrixCanvas :=
  if 0 ≤ x ∧ x < (c.width : ℤ) ∧ 0 ≤ y ∧ y < (c.height : ℤ) then
    { c with pixels :=
        c.pixels.set y.toNat ((c.pixels.getD y.toNat []).set x.toNat (r, g, b)) }
  else c

end RGBMatrixCanvas

/-- `DisplayManager.set_pixel(x, y, r, g, b)`
(src/src/display_manager.py lines 168-171): delegates to
`self.offscreen_canvas.SetPixel(x, y, r, g, b)`. -/
def DisplayManager.set_pixel (offscreen_canvas : RGBMatrixCanvas) (x y : ℤ)
    (r g b : ℕ) : RGBMatrixCanvas :=
  offscreen_canvas.SetPixel x y r g b

/-- The state of `MatrixDisplay` (src/matrix_display.py) relevant to
brightness handling: `_brightness`, exposed by the `brightness`
property. -/
structure MatrixDisplay where
  width : ℕ
  height : ℕ
  chainLength : ℕ
  brightness : ℤ
deriving DecidableEq

namespace MatrixDisplay

/-- The `MatrixDisplay.__init__` brightness initialisation
(src/matrix_display.py line 47): `self._brightness = 100`. -/
def init (width height chainLength : ℕ) : MatrixDisplay :=
  { width := width, height := height, chainLength := chainLength,
    brightness := 100 }

/-- `MatrixDisplay.set_brightness(value)` (src/matrix_display.py lines
119-133).  `v` models the outcome of `int(value)`: `some n` when the
conversion succeeds with `n`, `none` when it raises (then `value = 100`).
The result is clamped by `max(0, min(100, value))` and stored. -/
def set_brightness (d : MatrixDisplay) (v : Option ℤ) : MatrixDisplay :=
  let value : ℤ := match v with | some n => n | none => 100
  let value := max 0 (min 100 value)
  { d with brightness := value }

end MatrixDisplay

/-- C7: for every canvas and every coordinate pair outside the canvas
bounds, `SetPixel` (and `DisplayManager.set_pixel`, which delegates to
it) changes nothing: the state, in particular every pixel of the buffer,
is returned unchanged.  Absence of an exception is modelled by the
functions being total. -/
theorem c7_set_pixel_out_of_bounds (c : RGBMatrixCanvas) (x y : ℤ) (r g b : ℕ)
    (h : ¬ (0 ≤ x ∧ x < (c.width : ℤ) ∧ 0 ≤ y ∧ y < (c.height : ℤ))) :
    c.SetPixel x y r g b = c ∧ DisplayManager.set_pixel c x y r g b = c := by
  unfold DisplayManager.set_pixel RGBMatrixCanvas.SetPixel
  rw [if_neg h]
  exact ⟨rfl, rfl⟩

/-- Witness for C7: a 2×2 canvas is untouched by `SetPixel` at (-1, -1)
and at (width, height) = (2, 2). -/
theorem c7_set_pixel_out_of_bounds_witness :
    RGBMatrixCanvas.SetPixel ⟨2, 2, [[(0,0,0),(0,0,0)],[(0,0,0),(0,0,0)]]⟩
        (-1) (-1) 255 255 255 = ⟨2, 2, [[(0,0,0),(0,0,0)],[(0,0,0),(0,0,0)]]⟩ ∧
    RGBMatrixCanvas.SetPixel ⟨2, 2, [[(0,0,0),(0,0,0)],[(0,0,0),(0,0,0)]]⟩
        2 2 9 9 9 = ⟨2, 2, [[(0,0,0),(0,0,0)],[(0,0,0),(0,0,0)]]⟩ :=
  ⟨(c7_set_pixel_out_of_bounds _ (-1) (-1) 255 255 255 (by decide)).1,
   (c7_set_pixel_out_of_bounds _ 2 2 9 9 9 (by decide)).1⟩

/-- C9: for every enabled `CalendarManager` with a non-empty event list
and event index in range, `advance_event` sets the index to
`(i + 1) % len(events)` (wrapping to 0 after the last event) and leaves
every other field of the manager unchanged. -/
theorem c9_advance_event_mod (c : CalState) (hen : c.enabled = true)
    (hlt : c.currentEventIndex < c.events.length) :
    CalendarManager.advance_event c =
      { c with currentEventIndex := (c.currentEventIndex + 1) % c.events.length } := by
  unfold CalendarManager.advance_event
  rw [if_neg (by simp [hen])]
  by_cases h : c.events.length ≤ c.currentEventIndex + 1
  · rw [if_pos h]
    have : (c.currentEventIndex + 1) % c.events.length = 0 := by
      have : c.currentEventIndex + 1 = c.events.length := by omega
      simp [this]
    rw [this]
  · rw [if_neg h]
    have : (c.currentEventIndex + 1) % c.events.length = c.currentEventIndex + 1 :=
      Nat.mod_eq_of_lt (by omega)
    rw [this]

/-- Witness for C9: advancing from index 1 of a 2-event list wraps to
index 0, all other fields intact. -/
theorem c9_advance_event_mod_witness :
    CalendarManager.advance_event
        { enabled := true, updateInterval := 300, hasService := true,
          events := ["ev0", "ev1"], lastUpdate := 0, lastDisplayLog := 0,
          currentEventIndex := 1 } =
      { enabled := true, updateInterval := 300, hasService := true,
        events := ["ev0", "ev1"], lastUpdate := 0, lastDisplayLog := 0,
        currentEventIndex := (1 + 1) % 2 } :=
  c9_advance_event_mod
    { enabled := true, updateInterval := 300, hasService := true,
      events := ["ev0", "ev1"], lastUpdate := 0, lastDisplayLog := 0,
      currentEventIndex := 1 } rfl (by decide)

/-- C10: after any `set_brightness(v)` call the stored brightness is the
clamp of `int(v)` into [0, 100] when the conversion succeeds and 100 when
it raises, so `0 ≤ brightness ≤ 100`; the invariant also holds right
after construction (`_brightness = 100`). -/
theorem c10_brightness_clamped (d : MatrixDisplay) (v : Option ℤ)
    (w h cl : ℕ) :
    (d.set_brightness v).brightness =
      (match v with | some n => max 0 (min 100 n) | none => 100) ∧
    0 ≤ (d.set_brightness v).brightness ∧ (d.set_brightness v).brightness ≤ 100 ∧
    0 ≤ (MatrixDisplay.init w h cl).brightness ∧
    (MatrixDisplay.init w h cl).brightness ≤ 100 := by
  unfold MatrixDisplay.set_brightness MatrixDisplay.init
  refine ⟨?_, ?_, ?_, by simp, by simp⟩
  · cases v <;> simp
  · cases v <;> simp
  · cases v with
    | none => simp
    | some n => simp [min_le_iff]

/-- C6 counterexample: a `NewsFetcher` caching one headline loses it on a
failed fetch (`headlines` becomes `[]`, not the last good content), and a
`CalendarManager` holding one event likewise ends up with `events = []`
when the interval has elapsed and the API call fails. -/
theorem c6_failed_fetch_clears_cache_counterexample :
    ({ feedUrl := "u", headlines := ["old"] } : NewsFetcher).headlines = ["old"] ∧
    (NewsFetcher.fetch { feedUrl := "u", headlines := ["old"] } none).headlines = [] ∧
    ({ enabled := true, updateInterval := 300, hasService := true,
       events := ["old event"], lastUpdate := 0, lastDisplayLog := 0,
       currentEventIndex := 0 } : CalState).events = ["old event"] ∧
    (CalendarManager.update
      { enabled := true, updateInterval := 300, hasService := true,
        events := ["old event"], lastUpdate := 0, lastDisplayLog := 0,
        currentEventIndex := 0 } 400 none).events = [] := by
  refine ⟨rfl, rfl, rfl, ?_⟩
  unfold CalendarManager.update
  rw [if_neg (by simp), if_pos (by decide)]
  rfl

/-- C6 amended: when the fetch step fails, the provider's cached content
is cleared to the empty list — not retained — while the failure itself is
only logged and never propagated (both `fetch` and `update` are total and
return normally). -/
theorem c6_failed_fetch_clears_cache (nf : NewsFetcher) (c : CalState)
    (now : ℤ) (hen : c.enabled = true)
    (helapsed : now - c.lastUpdate > c.updateInterval) :
    (NewsFetcher.fetch nf none).headlines = [] ∧
    (CalendarManager.update c now none).events = [] := by
  constructor
  · rfl
  · unfold CalendarManager.update
    rw [if_neg (by simp [hen]), if_pos helapsed]
    simp [CalendarManager.get_events]

/-- Witness for C6 amended: concrete fetcher and calendar state with
cached content, a failing fetch at time 400. -/
theorem c6_failed_fetch_clears_cache_witness :
    (NewsFetcher.fetch { feedUrl := "u", headlines := ["a", "b"] } none).headlines = [] ∧
    (CalendarManager.update
      { enabled := true, updateInterval := 300, hasService := true,
        events := ["e1", "e2"], lastUpdate := 0, lastDisplayLog := 0,
        currentEventIndex := 1 } 400 none).events = [] :=
  c6_failed_fetch_clears_cache { feedUrl := "u", headlines := ["a", "b"] }
    { enabled := true, updateInterval := 300, hasService := true,
      events := ["e1", "e2"], lastUpdate := 0, lastDisplayLog := 0,
      currentEventIndex := 1 } 400 rfl (by decide)

/-- C2: when both the subtitle/description phase timer and the category
rotation timer have elapsed at a `display()` call, the resulting state
has the category index advanced by one modulo the number of current items
and the phase equal to SUBTITLE (`rotation_state = 0`) — the phase toggle
performed first is overwritten by the category-rotation reset. -/
theorem c2_tiebreak_category_wins (s : OTDState) (now : ℤ) (fc : Bool)
    (hen : s.enabled = true) (hne : s.currentItems ≠ [])
    (hsub : now - s.lastRotationTime > s.subtitleRotateInterval)
    (hcat : now - s.lastCategoryRotationTime > s.displayRotateInterval) :
    (OfTheDayManager.display s now fc).1.currentCategoryIndex =
      (s.currentCategoryIndex + 1) % s.currentItems.length ∧
    (OfTheDayManager.display s now fc).1.rotationState = 0 := by
  have hlen : 0 < s.currentItems.length := List.length_pos.mpr hne
  have hmod : (s.currentCategoryIndex + 1) % s.currentItems.length <
      s.currentItems.length := Nat.mod_lt _ hlen
  have hx : ¬ (((s.currentCategoryIndex + 1) % s.currentItems.length : ℕ) : ℤ) = -1 := by
    omega
  have hle : ¬ (s.currentItems.length ≤
      (s.currentCategoryIndex + 1) % s.currentItems.length) :=
    Nat.not_le.mpr hmod
  simp only [OfTheDayManager.display, hen, hne, hsub, hcat, hx, hle]
  simp only [if_true, if_false, Bool.true_eq_false, ite_false, ite_true]
  split_ifs <;> simp_all

/-- Witness for C2: two categories, both timers elapsed at `now = 40`;
the index advances 0 → 1 and the phase is SUBTITLE. -/
theorem c2_tiebreak_category_wins_witness :
    (OfTheDayManager.display
      { enabled := true, subtitleRotateInterval := 10, displayRotateInterval := 30,
        currentItems := ["cat0", "cat1"], currentCategoryIndex := 0,
        currentDay := some 5, lastDrawnCategoryIndex := 0, lastDrawnDay := some 5,
        rotationState := 1, lastRotationTime := 0, lastCategoryRotationTime := 0,
        lastWarningTime := none, lastDisplayLog := 0 } 40 false).1.currentCategoryIndex =
      (0 + 1) % 2 ∧
    (OfTheDayManager.display
      { enabled := true, subtitleRotateInterval := 10, displayRotateInterval := 30,
        currentItems := ["cat0", "cat1"], currentCategoryIndex := 0,
        currentDay := some 5, lastDrawnCategoryIndex := 0, lastDrawnDay := some 5,
        rotationState := 1, lastRotationTime := 0, lastCategoryRotationTime := 0,
        lastWarningTime := none, lastDisplayLog := 0 } 40 false).1.rotationState = 0 :=
  c2_tiebreak_category_wins
    { enabled := true, subtitleRotateInterval := 10, displayRotateInterval := 30,
      currentItems := ["cat0", "cat1"], currentCategoryIndex := 0,
      currentDay := some 5, lastDrawnCategoryIndex := 0, lastDrawnDay := some 5,
      rotationState := 1, lastRotationTime := 0, lastCategoryRotationTime := 0,
      lastWarningTime := none, lastDisplayLog := 0 } 40 false rfl (by decide)
    (by decide) (by decide)

/-- C3 counterexample: with `display_rotate_interval = 30` and the last
internal rotation at time 0, an external `advance_item` at `now = 28`
falls in the 5-second window before the internal timer fires — the claim
says it must be suppressed, but the code advances the index 0 → 1; at
`now = 10`, outside that window, the claim says the index advances, but
the code leaves it at 0. -/
theorem c3_guard_window_counterexample :
    (OfTheDayManager.advance_item
      { enabled := true, subtitleRotateInterval := 10, displayRotateInterval := 30,
        currentItems := ["cat0", "cat1"], currentCategoryIndex := 0,
        currentDay := some 5, lastDrawnCategoryIndex := 0, lastDrawnDay := some 5,
        rotationState := 0, lastRotationTime := 0, lastCategoryRotationTime := 0,
        lastWarningTime := none, lastDisplayLog := 0 } 28).currentCategoryIndex = 1 ∧
    (OfTheDayManager.advance_item
      { enabled := true, subtitleRotateInterval := 10, displayRotateInterval := 30,
        currentItems := ["cat0", "cat1"], currentCategoryIndex := 0,
        currentDay := some 5, lastDrawnCategoryIndex := 0, lastDrawnDay := some 5,
        rotationState := 0, lastRotationTime := 0, lastCategoryRotationTime := 0,
        lastWarningTime := none, lastDisplayLog := 0 } 10).currentCategoryIndex = 0 := by
  constructor <;> decide

/-- C3 amended: the suppression is the reverse of the claim — an external
`advance_item` takes effect exactly when the internal category-rotation
timer is due within the 5-second window, i.e. when
`display_rotate_interval - 5 ≤ now - last_category_rotation_time ≤
display_rotate_interval`; it advances the index by one modulo the item
count there, and is suppressed (state unchanged) whenever the elapsed
time is outside that window — both when the timer is already past due and
when more than 5 seconds remain. -/
theorem c3_guard_window (s : OTDState) (now : ℤ)
    (hen : s.enabled = true) (hne : s.currentItems ≠ []) :
    ((s.displayRotateInterval - 5 ≤ now - s.lastCategoryRotationTime ∧
      now - s.lastCategoryRotationTime ≤ s.displayRotateInterval) →
      (OfTheDayManager.advance_item s now).currentCategoryIndex =
        (s.currentCategoryIndex + 1) % s.currentItems.length) ∧
    ((now - s.lastCategoryRotationTime > s.displayRotateInterval ∨
      now - s.lastCategoryRotationTime < s.displayRotateInterval - 5) →
      OfTheDayManager.advance_item s now = s) := by
  constructor
  · intro hwin
    unfold OfTheDayManager.advance_item
    rw [if_neg (by simp [hen]), if_neg (by omega), if_neg (by omega), if_neg hne]
  · intro hout
    unfold OfTheDayManager.advance_item
    rw [if_neg (by simp [hen])]
    rcases hout with hlate | hearly
    · rw [if_pos hlate]
    · rw [if_neg (by omega), if_pos hearly]

/-- Witness for C3 amended: with the window [25, 30], an advance at
`now = 28` advances 0 → 1 = (0 + 1) % 2 and an advance at `now = 10`
leaves the state unchanged. -/
theorem c3_guard_window_witness :
    (OfTheDayManager.advance_item
      { enabled := true, subtitleRotateInterval := 10, displayRotateInterval := 30,
        currentItems := ["cat0", "cat1"], currentCategoryIndex := 0,
        currentDay := some 5, lastDrawnCategoryIndex := 0, lastDrawnDay := some 5,
        rotationState := 0, lastRotationTime := 0, lastCategoryRotationTime := 0,
        lastWarningTime := none, lastDisplayLog := 0 } 28).currentCategoryIndex =
      (0 + 1) % 2 ∧
    OfTheDayManager.advance_item
      { enabled := true, subtitleRotateInterval := 10, displayRotateInterval := 30,
        currentItems := ["cat0", "cat1"], currentCategoryIndex := 0,
        currentDay := some 5, lastDrawnCategoryIndex := 0, lastDrawnDay := some 5,
        rotationState := 0, lastRotationTime := 0, lastCategoryRotationTime := 0,
        lastWarningTime := none, lastDisplayLog := 0 } 10 =
      { enabled := true, subtitleRotateInterval := 10, displayRotateInterval := 30,
        currentItems := ["cat0", "cat1"], currentCategoryIndex := 0,
        currentDay := some 5, lastDrawnCategoryIndex := 0, lastDrawnDay := some 5,
        rotationState := 0, lastRotationTime := 0, lastCategoryRotationTime := 0,
        lastWarningTime := none, lastDisplayLog := 0 } :=
  ⟨(c3_guard_window
      { enabled := true, subtitleRotateInterval := 10, displayRotateInterval := 30,
        currentItems := ["cat0", "cat1"], currentCategoryIndex := 0,
        currentDay := some 5, lastDrawnCategoryIndex := 0, lastDrawnDay := some 5,
        rotationState := 0, lastRotationTime := 0, lastCategoryRotationTime := 0,
        lastWarningTime := none, lastDisplayLog := 0 } 28 rfl (by decide)).1
      (by decide),
   (c3_guard_window
      { enabled := true, subtitleRotateInterval := 10, displayRotateInterval := 30,
        currentItems := ["cat0", "cat1"], currentCategoryIndex := 0,
        currentDay := some 5, lastDrawnCategoryIndex := 0, lastDrawnDay := some 5,
        rotationState := 0, lastRotationTime := 0, lastCategoryRotationTime := 0,
        lastWarningTime := none, lastDisplayLog := 0 } 10 rfl (by decide)).2
      (by decide)⟩

/-- C8: when neither rotation timer has elapsed, the selected category
index and day equal the last drawn ones and `force_clear` is false, a
`display()` call produces no clear, draw or swap (the canvas is
untouched) and leaves all rotation state of the manager unchanged. -/
theorem c8_no_redraw_when_unchanged (s : OTDState) (now : ℤ)
    (hsub : ¬ (now - s.lastRotationTime > s.subtitleRotateInterval))
    (hcat : ¬ (now - s.lastCategoryRotationTime > s.displayRotateInterval))
    (hidx : (s.currentCategoryIndex : ℤ) = s.lastDrawnCategoryIndex)
    (hday : s.currentDay = s.lastDrawnDay) :
    (OfTheDayManager.display s now false).2 = [] ∧
    (OfTheDayManager.display s now false).1.rotationState = s.rotationState ∧
    (OfTheDayManager.display s now false).1.currentCategoryIndex =
      s.currentCategoryIndex ∧
    (OfTheDayManager.display s now false).1.lastRotationTime =
      s.lastRotationTime ∧
    (OfTheDayManager.display s now false).1.lastCategoryRotationTime =
      s.lastCategoryRotationTime ∧
    (OfTheDayManager.display s now false).1.lastDrawnCategoryIndex =
      s.lastDrawnCategoryIndex ∧
    (OfTheDayManager.display s now false).1.lastDrawnDay = s.lastDrawnDay := by
  by_cases hen : s.enabled = false
  · simp only [OfTheDayManager.display, hen, ite_true, if_true]
    simp
  · by_cases hitems : s.currentItems = []
    · simp only [OfTheDayManager.display, hen, hitems, ite_true, ite_false, if_true,
        if_false]
      refine ⟨rfl, ?_, ?_, ?_, ?_, ?_, ?_⟩ <;> split_ifs <;> rfl
    · simp only [OfTheDayManager.display, hen, hitems, hsub, hcat, hidx, hday, ite_true,
        ite_false, if_true, if_false, and_true, and_self, eq_self_iff_true]
      simp

/-- Witness for C8: at `now = 40`, with both timers re-armed at 35/20 and
a state already drawn (index 1, day 5), `display` is a no-op on both the
effects and the rotation fields. -/
theorem c8_no_redraw_when_unchanged_witness :
    (OfTheDayManager.display
      { enabled := true, subtitleRotateInterval := 10, displayRotateInterval := 30,
        currentItems := ["cat0", "cat1"], currentCategoryIndex := 1,
        currentDay := some 5, lastDrawnCategoryIndex := 1, lastDrawnDay := some 5,
        rotationState := 1, lastRotationTime := 35, lastCategoryRotationTime := 20,
        lastWarningTime := none, lastDisplayLog := 0 } 40 false).2 = [] ∧
    (OfTheDayManager.display
      { enabled := true, subtitleRotateInterval := 10, displayRotateInterval := 30,
        currentItems := ["cat0", "cat1"], currentCategoryIndex := 1,
        currentDay := some 5, lastDrawnCategoryIndex := 1, lastDrawnDay := some 5,
        rotationState := 1, lastRotationTime := 35, lastCategoryRotationTime := 20,
        lastWarningTime := none, lastDisplayLog := 0 } 40 false).1.rotationState = 1 :=
  ⟨(c8_no_redraw_when_unchanged
      { enabled := true, subtitleRotateInterval := 10, displayRotateInterval := 30,
        currentItems := ["cat0", "cat1"], currentCategoryIndex := 1,
        currentDay := some 5, lastDrawnCategoryIndex := 1, lastDrawnDay := some 5,
        rotationState := 1, lastRotationTime := 35, lastCategoryRotationTime := 20,
        lastWarningTime := none, lastDisplayLog := 0 } 40 (by decide) (by decide)
      (by decide) (by decide)).1,
   (c8_no_redraw_when_unchanged
      { enabled := true, subtitleRotateInterval := 10, displayRotateInterval := 30,
        currentItems := ["cat0", "cat1"], currentCategoryIndex := 1,
        currentDay := some 5, lastDrawnCategoryIndex := 1, lastDrawnDay := some 5,
        rotationState := 1, lastRotationTime := 35, lastCategoryRotationTime := 20,
        lastWarningTime := none, lastDisplayLog := 0 } 40 (by decide) (by decide)
      (by decide) (by decide)).2.1⟩

/-- Padding with empty strings and slicing (`while len(lines) <
max_lines: lines.append("")` followed by `lines[:max_lines]`) always
yields exactly `max_lines` entries. -/
theorem pad_take_length (lines : List Str) (ml : ℕ) :
    ((lines ++ List.replicate (ml - lines.length) ([] : Str)).take ml).length = ml := by
  simp only [List.length_take, List.length_append, List.length_replicate]
  omega

/-- C1 counterexample: wrapping the empty string with `max_lines = 3`
returns the single-entry list `[""]`, not 3 entries, because of the early
`if not text: return [""]`. -/
theorem c1_empty_text_counterexample :
    ¬ ((OfTheDayManager.wrapText w6 [] 30 3 8 24).length = 3) := by decide

/-- C1 amended: for every non-empty text, every width budget, every width
measure (font) and every `max_lines`, both `_wrap_text` implementations
return exactly `max_lines` line strings, padding with empty strings; for
the empty string they instead return the one-element list `[""]`. -/
theorem c1_wrap_exact_lines (wfn : Str → ℕ) (text : Str)
    (mw ml lh mh mw2 ml2 : ℕ) (h : text ≠ []) :
    (OfTheDayManager.wrapText wfn text mw ml lh mh).length = ml ∧
    (CalendarManager.wrapText wfn text mw2 ml2).length = ml2 ∧
    OfTheDayManager.wrapText wfn [] mw ml lh mh = [[]] ∧
    CalendarManager.wrapText wfn [] mw2 ml2 = [[]] := by
  refine ⟨?_, ?_, rfl, rfl⟩
  · unfold OfTheDayManager.wrapText
    rw [if_neg h]
    exact pad_take_length _ _
  · unfold CalendarManager.wrapText
    rw [if_neg h]
    exact pad_take_length _ _

/-- Witness for C1 amended: wrapping the two-word text "aa b" into 3
lines yields exactly 3 entries from the OfTheDayManager variant and 2
from the CalendarManager variant with `max_lines = 2`. -/
theorem c1_wrap_exact_lines_witness :
    (OfTheDayManager.wrapText w6 ['a', 'a', ' ', 'b'] 30 3 8 24).length = 3 ∧
    (CalendarManager.wrapText w6 ['a', 'a', ' ', 'b'] 30 2).length = 2 :=
  ⟨(c1_wrap_exact_lines w6 ['a', 'a', ' ', 'b'] 30 3 8 24 30 2 (by decide)).1,
   (c1_wrap_exact_lines w6 ['a', 'a', ' ', 'b'] 30 3 8 24 30 2 (by decide)).2.1⟩

/-- Python `' '.join([w]) = w`. -/
theorem joinSp_singleton (w : Str) : joinSp [w] = w := by
  simp [joinSp, List.intercalate]

/-- A successful truncation fits the width budget: the loop only
appends `truncated + "..."` after testing it. -/
theorem truncateAux_some_le (wfn : Str → ℕ) (mw : ℕ) (w : Str) :
    ∀ n l, truncateAux wfn mw w n = some l → wfn l ≤ mw := by
  intro n
  induction n with
  | zero => intro l h; simp [truncateAux] at h
  | succ k ih =>
    intro l h
    by_cases hfit : wfn (w.take (k + 1) ++ dots) ≤ mw
    · rw [truncateAux, if_pos hfit] at h
      cases h
      exact hfit
    · rw [truncateAux, if_neg hfit] at h
      exact ih l h

/-- The overflow branch preserves the line classification: every line it
closes is good, and the new `current_line` is either empty, a tested
fit, or the single carried word. -/
theorem overflowStep_good (wfn : Str → ℕ) (mw : ℕ) (ws : List Str)
    (lines currentLine : List Str) (word : Str) (hword : word ∈ ws)
    (hlines : ∀ l ∈ lines, GoodLine wfn mw ws l)
    (hcl : currentLine ≠ [] →
      wfn (joinSp currentLine) ≤ mw ∨ ∃ w ∈ ws, currentLine = [w]) :
    (∀ l ∈ (overflowStep wfn mw lines currentLine word).1, GoodLine wfn mw ws l) ∧
    ((overflowStep wfn mw lines currentLine word).2 ≠ [] →
      wfn (joinSp (overflowStep wfn mw lines currentLine word).2) ≤ mw ∨
      ∃ w ∈ ws, (overflowStep wfn mw lines currentLine word).2 = [w]) := by
  by_cases hc : currentLine = []
  · simp only [overflowStep, hc, ne_eq, not_true_eq_false, if_false, ite_false]
    cases htr : truncateAux wfn mw word word.length with
    | some l =>
      simp only [htr]
      constructor
      · intro l2 hl2
        rcases List.mem_append.mp hl2 with h | h
        · exact hlines l2 h
        · rw [List.mem_singleton] at h
          exact h ▸ Or.inl (truncateAux_some_le wfn mw word word.length l htr)
      · intro h; exact absurd trivial h
    | none =>
      simp only [htr]
      constructor
      · intro l2 hl2
        rcases List.mem_append.mp hl2 with h | h
        · exact hlines l2 h
        · rw [List.mem_singleton] at h
          exact h ▸ Or.inr (Or.inr ⟨word, hword, rfl⟩)
      · intro h; exact absurd trivial h
  · simp only [overflowStep, hc, ne_eq, not_false_eq_true, if_true, ite_true]
    constructor
    · intro l2 hl2
      rcases List.mem_append.mp hl2 with h | h
      · exact hlines l2 h
      · rw [List.mem_singleton] at h
        subst h
        rcases hcl hc with hfit | ⟨w, hw, hcw⟩
        · exact Or.inl hfit
        · rw [hcw, joinSp_singleton]
          exact Or.inr (Or.inl hw)
    · intro _
      exact Or.inr ⟨word, hword, rfl⟩

/-- Loop invariant of the OfTheDayManager word loop: all accumulated
lines are `GoodLine`s and a non-empty `current_line` joins to a tested
fit or is a single carried word of the text. -/
theorem wrapLoop_goodlines (wfn : Str → ℕ) (mw ml lh mh : ℕ) (ws : List Str)
    (words : List Str) :
    ∀ (lines currentLine : List Str),
      (∀ w ∈ words, w ∈ ws) →
      (∀ l ∈ lines, GoodLine wfn mw ws l) →
      (currentLine ≠ [] →
        wfn (joinSp currentLine) ≤ mw ∨ ∃ w ∈ ws, currentLine = [w]) →
      (∀ l ∈ (wrapLoop wfn mw ml lh mh words lines currentLine).1,
        GoodLine wfn mw ws l) ∧
      ((wrapLoop wfn mw ml lh mh words lines currentLine).2 ≠ [] →
        wfn (joinSp (wrapLoop wfn mw ml lh mh words lines currentLine).2) ≤ mw ∨
        ∃ w ∈ ws, (wrapLoop wfn mw ml lh mh words lines currentLine).2 = [w]) := by
  induction words with
  | nil =>
    intro lines currentLine hws hlines hcl
    exact ⟨hlines, hcl⟩
  | cons word rest ih =>
    intro lines currentLine hws hlines hcl
    have hword : word ∈ ws := hws word (List.mem_cons_self _ _)
    have hrest : ∀ w ∈ rest, w ∈ ws := fun w hw => hws w (List.mem_cons_of_mem _ hw)
    simp only [wrapLoop]
    by_cases hfit :
        wfn (if currentLine = [] then word else joinSp (currentLine ++ [word])) ≤ mw
    · rw [if_pos hfit]
      have hcl2 : (currentLine ++ [word]) ≠ [] →
          wfn (joinSp (currentLine ++ [word])) ≤ mw ∨
          ∃ w ∈ ws, currentLine ++ [word] = [w] := by
        intro _
        left
        by_cases hc : currentLine = []
        · rw [if_pos hc] at hfit
          rw [hc]
          simpa [joinSp_singleton] using hfit
        · rwa [if_neg hc] at hfit
      by_cases hbreak : mh ≤ lines.length * lh ∨ ml ≤ lines.length
      · rw [if_pos hbreak]
        exact ⟨hlines, hcl2⟩
      · rw [if_neg hbreak]
        exact ih lines (currentLine ++ [word]) hrest hlines hcl2
    · rw [if_neg hfit]
      have hst := overflowStep_good wfn mw ws lines currentLine word hword hlines hcl
      by_cases hbreak : mh ≤ (overflowStep wfn mw lines currentLine word).1.length * lh ∨
          ml ≤ (overflowStep wfn mw lines currentLine word).1.length
      · rw [if_pos hbreak]
        exact hst
      · rw [if_neg hbreak]
        exact ih _ _ hrest hst.1 hst.2

/-- Loop invariant of the CalendarManager word loop, identical to the
OfTheDayManager one. -/
theorem calWrapLoop_goodlines (wfn : Str → ℕ) (mw ml : ℕ) (ws : List Str)
    (words : List Str) :
    ∀ (lines currentLine : List Str),
      (∀ w ∈ words, w ∈ ws) →
      (∀ l ∈ lines, GoodLine wfn mw ws l) →
      (currentLine ≠ [] →
        wfn (joinSp currentLine) ≤ mw ∨ ∃ w ∈ ws, currentLine = [w]) →
      (∀ l ∈ (calWrapLoop wfn mw ml words lines currentLine).1,
        GoodLine wfn mw ws l) ∧
      ((calWrapLoop wfn mw ml words lines currentLine).2 ≠ [] →
        wfn (joinSp (calWrapLoop wfn mw ml words lines currentLine).2) ≤ mw ∨
        ∃ w ∈ ws, (calWrapLoop wfn mw ml words lines currentLine).2 = [w]) := by
  induction words with
  | nil =>
    intro lines currentLine hws hlines hcl
    exact ⟨hlines, hcl⟩
  | cons word rest ih =>
    intro lines currentLine hws hlines hcl
    have hword : word ∈ ws := hws word (List.mem_cons_self _ _)
    have hrest : ∀ w ∈ rest, w ∈ ws := fun w hw => hws w (List.mem_cons_of_mem _ hw)
    simp only [calWrapLoop]
    by_cases hfit :
        wfn (if currentLine = [] then word else joinSp (currentLine ++ [word])) ≤ mw
    · rw [if_pos hfit]
      have hcl2 : (currentLine ++ [word]) ≠ [] →
          wfn (joinSp (currentLine ++ [word])) ≤ mw ∨
          ∃ w ∈ ws, currentLine ++ [word] = [w] := by
        intro _
        left
        by_cases hc : currentLine = []
        · rw [if_pos hc] at hfit
          rw [hc]
          simpa [joinSp_singleton] using hfit
        · rwa [if_neg hc] at hfit
      by_cases hbreak : ml ≤ lines.length
      · rw [if_pos hbreak]
        exact ⟨hlines, hcl2⟩
      · rw [if_neg hbreak]
        exact ih lines (currentLine ++ [word]) hrest hlines hcl2
    · rw [if_neg hfit]
      have hst := overflowStep_good wfn mw ws lines currentLine word hword hlines hcl
      by_cases hbreak : ml ≤ (overflowStep wfn mw lines currentLine word).1.length
      · rw [if_pos hbreak]
        exact hst
      · rw [if_neg hbreak]
        exact ih _ _ hrest hst.1 hst.2

/-- Every non-empty line of `OfTheDayManager._wrap_text` is a
`GoodLine`: it fits the budget, or is a word of the text carried
unchecked onto its own line, or is a last-resort truncation. -/
theorem otd_wrap_goodlines (wfn : Str → ℕ) (text : Str) (mw ml lh mh : ℕ) :
    ∀ l ∈ OfTheDayManager.wrapText wfn text mw ml lh mh, l ≠ [] →
      GoodLine wfn mw (pyWords text) l := by
  intro l hl hne
  by_cases htext : text = []
  · rw [htext] at hl
    simp [OfTheDayManager.wrapText] at hl
    exact absurd hl hne
  · rw [OfTheDayManager.wrapText, if_neg htext] at hl
    have hloop := wrapLoop_goodlines wfn mw ml lh mh (pyWords text) (pyWords text)
      [] [] (fun _ h => h) (by simp) (by simp)
    have hl2 := List.take_subset _ _ hl
    rcases List.mem_append.mp hl2 with h | h
    · split at h
      · rename_i hcond
        rcases List.mem_append.mp h with h3 | h3
        · exact hloop.1 l h3
        · rw [List.mem_singleton] at h3
          subst h3
          rcases hloop.2 hcond.1 with hfit | ⟨w, hw, heq⟩
          · exact Or.inl hfit
          · rw [heq, joinSp_singleton]
            exact Or.inr (Or.inl hw)
      · exact hloop.1 l h
    · exact absurd (List.eq_of_mem_replicate h) hne

/-- Every non-empty line of `CalendarManager._wrap_text` is a
`GoodLine`. -/
theorem cal_wrap_goodlines (wfn : Str → ℕ) (text : Str) (mw ml : ℕ) :
    ∀ l ∈ CalendarManager.wrapText wfn text mw ml, l ≠ [] →
      GoodLine wfn mw (pyWords text) l := by
  intro l hl hne
  by_cases htext : text = []
  · rw [htext] at hl
    simp [CalendarManager.wrapText] at hl
    exact absurd hl hne
  · rw [CalendarManager.wrapText, if_neg htext] at hl
    have hloop := calWrapLoop_goodlines wfn mw ml (pyWords text) (pyWords text)
      [] [] (fun _ h => h) (by simp) (by simp)
    have hl2 := List.take_subset _ _ hl
    set st := calWrapLoop wfn mw ml (pyWords text) [] [] with hstdef
    rcases List.mem_append.mp hl2 with h | h
    · split at h
      · rename_i hcond
        split at h
        · dsimp only [] at h
          cases htr : truncateAux wfn mw (joinSp st.2) (joinSp st.2).length with
          | some l2 =>
            rw [htr] at h
            rcases List.mem_append.mp h with h3 | h3
            · exact hloop.1 l h3
            · rw [List.mem_singleton] at h3
              subst h3
              exact Or.inl (truncateAux_some_le wfn mw _ _ l htr)
          | none =>
            rw [htr] at h
            exact hloop.1 l h
        · rcases List.mem_append.mp h with h3 | h3
          · exact hloop.1 l h3
          · rw [List.mem_singleton] at h3
            subst h3
            rcases hloop.2 hcond.1 with hfit | ⟨w, hw, heq⟩
            · exact Or.inl hfit
            · rw [heq, joinSp_singleton]
              exact Or.inr (Or.inl hw)
      · exact hloop.1 l h
    · exact absurd (List.eq_of_mem_replicate h) hne

/-- Full characterisation of the truncation loop: it returns the longest
truncation `w[:k] + "..."` that fits the budget (every longer one
fails), and `none` exactly when no non-empty truncation fits. -/
theorem truncateAux_spec (wfn : Str → ℕ) (mw : ℕ) (w : Str) :
    ∀ n : ℕ,
      (∃ l, truncateAux wfn mw w n = some l ∧ ∃ k, 1 ≤ k ∧ k ≤ n ∧
          wfn (w.take k ++ dots) ≤ mw ∧
          (∀ j, k < j → j ≤ n → mw < wfn (w.take j ++ dots)) ∧
          l = w.take k ++ dots) ∨
      (truncateAux wfn mw w n = none ∧
        ∀ k, 1 ≤ k → k ≤ n → mw < wfn (w.take k ++ dots)) := by
  intro n
  induction n with
  | zero =>
    right
    exact ⟨rfl, fun k h1 h2 => absurd (h1.trans h2) (by omega)⟩
  | succ m ih =>
    by_cases hfit : wfn (w.take (m + 1) ++ dots) ≤ mw
    · left
      refine ⟨w.take (m + 1) ++ dots, ?_, m + 1, by omega, le_refl _, hfit, ?_, rfl⟩
      · rw [truncateAux, if_pos hfit]
      · intro j hj1 hj2
        omega
    · rcases ih with ⟨l, htr, k, h1, h2, h3, h4, h5⟩ | ⟨htr, hall⟩
      · left
        refine ⟨l, ?_, k, h1, by omega, h3, ?_, h5⟩
        · rw [truncateAux, if_neg hfit]
          exact htr
        · intro j hj1 hj2
          by_cases hjm : j ≤ m
          · exact h4 j hj1 hjm
          · have : j = m + 1 := by omega
            subst this
            exact Nat.lt_of_not_le hfit
      · right
        constructor
        · rw [truncateAux, if_neg hfit]
          exact htr
        · intro k h1 h2
          by_cases hkm : k ≤ m
          · exact hall k h1 hkm
          · have : k = m + 1 := by omega
            subst this
            exact Nat.lt_of_not_le hfit

/-- The head of `lines[:max_lines]` is the first line whenever
`max_lines ≥ 1`. -/
theorem head_take (x : Str) (xs : List Str) (ml : ℕ) (h : 1 ≤ ml) :
    ((x :: xs).take ml).head? = some x := by
  cases ml with
  | zero => omega
  | succ m => simp

/-- The overflow branch closes exactly one new line below the
accumulated ones. -/
theorem overflowStep_fst (wfn : Str → ℕ) (mw : ℕ) (lines currentLine : List Str)
    (word : Str) :
    ∃ x, (overflowStep wfn mw lines currentLine word).1 = lines ++ [x] := by
  unfold overflowStep
  split_ifs
  · exact ⟨joinSp currentLine, rfl⟩
  · cases htr : truncateAux wfn mw word word.length with
    | some l => exact ⟨l, by simp [htr]⟩
    | none => exact ⟨word.take 10 ++ dots, by simp [htr]⟩

/-- The word loop only appends to the accumulated lines: the lines
passed in stay a prefix of the result. -/
theorem wrapLoop_lines_mono (wfn : Str → ℕ) (mw ml lh mh : ℕ) (words : List Str) :
    ∀ lines currentLine : List Str,
      ∃ suf, (wrapLoop wfn mw ml lh mh words lines currentLine).1 = lines ++ suf := by
  induction words with
  | nil =>
    intro lines currentLine
    exact ⟨[], by simp [wrapLoop]⟩
  | cons word rest ih =>
    intro lines currentLine
    simp only [wrapLoop]
    by_cases hfit :
        wfn (if currentLine = [] then word else joinSp (currentLine ++ [word])) ≤ mw
    · rw [if_pos hfit]
      by_cases hbr : mh ≤ lines.length * lh ∨ ml ≤ lines.length
      · rw [if_pos hbr]
        exact ⟨[], by simp⟩
      · rw [if_neg hbr]
        exact ih lines (currentLine ++ [word])
    · rw [if_neg hfit]
      obtain ⟨x, hx⟩ := overflowStep_fst wfn mw lines currentLine word
      by_cases hbr : mh ≤ (overflowStep wfn mw lines currentLine word).1.length * lh ∨
          ml ≤ (overflowStep wfn mw lines currentLine word).1.length
      · rw [if_pos hbr]
        exact ⟨[x], hx⟩
      · rw [if_neg hbr]
        obtain ⟨suf, hs⟩ :=
          ih (lines ++ [x]) (overflowStep wfn mw lines currentLine word).2
        refine ⟨[x] ++ suf, ?_⟩
        rw [hx, hs, List.append_assoc]

/-- C5: a word wider than the width budget that starts a fresh line
(here: the first word of the text, processed with an empty current line)
is truncated character-by-character from the end until the truncation
plus the ellipsis fits; when not even one character plus the ellipsis
fits, the first 10 characters plus the ellipsis are emitted; with
`max_lines ≥ 1` the resulting first line is never empty. -/
theorem c5_single_word_truncation (wfn : Str → ℕ) (text w : Str) (rest : List Str)
    (mw ml lh mh : ℕ) (htext : text ≠ [])
    (hwords : pyWords text = w :: rest)
    (hwide : mw < wfn w) (hml : 1 ≤ ml) :
    ∃ line, (OfTheDayManager.wrapText wfn text mw ml lh mh).head? = some line ∧
      line ≠ [] ∧
      ((∃ k, 1 ≤ k ∧ k ≤ w.length ∧ wfn (w.take k ++ dots) ≤ mw ∧
          (∀ j, k < j → j ≤ w.length → mw < wfn (w.take j ++ dots)) ∧
          line = w.take k ++ dots) ∨
       ((∀ k, 1 ≤ k → k ≤ w.length → mw < wfn (w.take k ++ dots)) ∧
        line = w.take 10 ++ dots)) := by
  have hfitF : ¬ wfn w ≤ mw := by omega
  have hstep : wrapLoop wfn mw ml lh mh (w :: rest) [] [] =
      (if mh ≤ (overflowStep wfn mw [] [] w).1.length * lh ∨
          ml ≤ (overflowStep wfn mw [] [] w).1.length
       then overflowStep wfn mw [] [] w
       else wrapLoop wfn mw ml lh mh rest (overflowStep wfn mw [] [] w).1
              (overflowStep wfn mw [] [] w).2) := by
    simp only [wrapLoop, ite_true, if_true, eq_self_iff_true]
    rw [if_neg hfitF]
  have hkey : ∃ l0, overflowStep wfn mw [] [] w = ([l0], []) ∧ l0 ≠ [] ∧
      ((∃ k, 1 ≤ k ∧ k ≤ w.length ∧ wfn (w.take k ++ dots) ≤ mw ∧
          (∀ j, k < j → j ≤ w.length → mw < wfn (w.take j ++ dots)) ∧
          l0 = w.take k ++ dots) ∨
       ((∀ k, 1 ≤ k → k ≤ w.length → mw < wfn (w.take k ++ dots)) ∧
        l0 = w.take 10 ++ dots)) := by
    rcases truncateAux_spec wfn mw w w.length with ⟨l0, htr, k, hk1, hk2, hk3, hk4, hk5⟩ |
      ⟨htr, hall⟩
    · refine ⟨l0, by simp [overflowStep, htr], ?_, Or.inl ⟨k, hk1, hk2, hk3, hk4, hk5⟩⟩
      rw [hk5]
      simp [dots]
    · refine ⟨w.take 10 ++ dots, by simp [overflowStep, htr], by simp [dots],
        Or.inr ⟨hall, rfl⟩⟩
  obtain ⟨l0, hov, hne0, hpol⟩ := hkey
  have hres1 : ∃ suf, (wrapLoop wfn mw ml lh mh (w :: rest) [] []).1 = l0 :: suf := by
    rw [hstep, hov]
    split_ifs
    · exact ⟨[], rfl⟩
    · obtain ⟨suf, hs⟩ := wrapLoop_lines_mono wfn mw ml lh mh rest [l0] []
      exact ⟨suf, hs⟩
  obtain ⟨suf, hsuf⟩ := hres1
  refine ⟨l0, ?_, hne0, hpol⟩
  rw [OfTheDayManager.wrapText, if_neg htext, hwords]
  dsimp only []
  have hfinal : ∃ t,
      (if (wrapLoop wfn mw ml lh mh (w :: rest) [] []).2 ≠ [] ∧
          (wrapLoop wfn mw ml lh mh (w :: rest) [] []).1.length * lh < mh ∧
          (wrapLoop wfn mw ml lh mh (w :: rest) [] []).1.length < ml
       then (wrapLoop wfn mw ml lh mh (w :: rest) [] []).1 ++
              [joinSp (wrapLoop wfn mw ml lh mh (w :: rest) [] []).2]
       else (wrapLoop wfn mw ml lh mh (w :: rest) [] []).1) = l0 :: t := by
    split_ifs
    · exact ⟨suf ++ [joinSp (wrapLoop wfn mw ml lh mh (w :: rest) [] []).2],
        by rw [hsuf]; rfl⟩
    · exact ⟨suf, hsuf⟩
  obtain ⟨t, ht⟩ := hfinal
  rw [ht]
  exact head_take l0 _ ml hml

/-- Witness for C5: the single word "Hello" at 6 px/char against a 5 px
budget (no truncation fits, so the last-resort line "Hello..." is
emitted, which is non-empty). -/
theorem c5_single_word_truncation_witness :
    ∃ line, (OfTheDayManager.wrapText w6 ['H', 'e', 'l', 'l', 'o'] 5 3 8 24).head? =
        some line ∧ line ≠ [] ∧
      ((∃ k, 1 ≤ k ∧ k ≤ (['H', 'e', 'l', 'l', 'o'] : Str).length ∧
          w6 ((['H', 'e', 'l', 'l', 'o'] : Str).take k ++ dots) ≤ 5 ∧
          (∀ j, k < j → j ≤ (['H', 'e', 'l', 'l', 'o'] : Str).length →
            5 < w6 ((['H', 'e', 'l', 'l', 'o'] : Str).take j ++ dots)) ∧
          line = (['H', 'e', 'l', 'l', 'o'] : Str).take k ++ dots) ∨
       ((∀ k, 1 ≤ k → k ≤ (['H', 'e', 'l', 'l', 'o'] : Str).length →
          5 < w6 ((['H', 'e', 'l', 'l', 'o'] : Str).take k ++ dots)) ∧
        line = (['H', 'e', 'l', 'l', 'o'] : Str).take 10 ++ dots)) :=
  c5_single_word_truncation w6 ['H', 'e', 'l', 'l', 'o'] ['H', 'e', 'l', 'l', 'o'] []
    5 3 8 24 (by decide) (by decide) (by decide) (by decide)

/-- C4 counterexample: wrapping "aa bbbbbb" into a 12 px budget at
6 px/char produces the line "bbbbbb" (the word carried unchecked onto a
fresh line), whose measured width 36 exceeds the budget — so not every
non-empty line fits. -/
theorem c4_width_counterexample :
    ¬ (∀ l ∈ OfTheDayManager.wrapText w6
        ['a', 'a', ' ', 'b', 'b', 'b', 'b', 'b', 'b'] 12 3 8 24,
        l = [] ∨ w6 l ≤ 12) := by decide

/-- C4 amended: every non-empty line of either `_wrap_text` fits the
width budget, or is a single word of the input text wider than the
budget that was carried unchecked onto a fresh line after closing a full
one, or is a last-resort truncation `word[:10] + "..."`. -/
theorem c4_wrap_width_bounded (wfn : Str → ℕ) (text : Str)
    (mw ml lh mh ml2 : ℕ) :
    (∀ l ∈ OfTheDayManager.wrapText wfn text mw ml lh mh, l ≠ [] →
      GoodLine wfn mw (pyWords text) l) ∧
    (∀ l ∈ CalendarManager.wrapText wfn text mw ml2, l ≠ [] →
      GoodLine wfn mw (pyWords text) l) :=
  ⟨otd_wrap_goodlines wfn text mw ml lh mh, cal_wrap_goodlines wfn text mw ml2⟩

/-- Witness for C4 amended: the line "hi" of wrapping the text "hi" into
a 30 px budget is classified (it fits: 12 ≤ 30). -/
theorem c4_wrap_width_bounded_witness :
    GoodLine w6 30 (pyWords ['h', 'i']) ['h', 'i'] :=
  (c4_wrap_width_bounded w6 ['h', 'i'] 30 3 8 24 2).1 ['h', 'i']
    (by decide) (by decide)
